import Mathlib

/-!
Verification development for `reco_encoder/data/input_layer.py`
(`UserItemRecDataProvider`).

Shallow embedding notes:
* Python dicts preserve insertion order; we model them as association
  lists (`List (key × value)`) whose insert appends at the end, and in
  which a key is never inserted twice.
* The corpus (`data_dir` after the `listdir`/extension filter) is
  modelled as a list of files, each a file name together with its list
  of lines (without trailing newlines).
* Ratings are parsed with `float(...)` in Python but only carried
  through unchanged, never computed with; we model them as `Rat`.
* The field delimiter is a single character (the default `"\t"`).
* Python exceptions are modelled by `Except Err`; the error kinds carry
  the data the corresponding Python message interpolates.
* `random.shuffle` is modelled by passing the shuffled key list as an
  explicit argument to `iterate_one_epoch`.
* The `while` loop of `iterate_one_epoch` is transcribed as a
  fuel-indexed loop (`epochLoopAux`); the public entry point runs it
  with fuel `keys.length`, shown sufficient whenever `batch_size ≥ 1`.
* `self.src_data` is assigned by external callers, never in
  `input_layer.py` itself; the field is an `Option`, `none` modelling
  the unset attribute.
-/

deriving instance DecidableEq for Except

namespace UserItemRec

/-! ## Definitions -/

/-- Raw-id → dense-index mapping (`self._user_id_map` / `self._item_id_map`):
an insertion-ordered association list. -/
abbrev IdMap := List (Int × Nat)

/-- Aggregated interaction table (`self.data`): major dense index →
ordered list of (minor dense index, rating), keys in insertion order. -/
abbrev AggTable := List (Nat × List (Nat × Rat))

/-- The input corpus: each file is (file name, lines). -/
abbrev Corpus := List (String × List String)

/-- Errors raised by the data provider.  `invalidMajor` is the
`ValueError` of `__init__` on a bad `major`; `malformedLine` the
`ValueError` for a line with fewer than 3 fields (carrying the file);
`indexError` a Python `IndexError` from indexing a split line out of
range; `numericParse` a `ValueError` from `int(...)`/`float(...)`;
`unknownIdentifier` a `KeyError` from a map lookup; `missingSourceData`
the failure of `iterate_one_epoch_eval` when `src_data` is unset or
lacks a key. -/
inductive Err where
  | invalidMajor (got : String)
  | malformedLine (file : String)
  | indexError
  | numericParse
  | unknownIdentifier
  | missingSourceData

deriving Repr, DecidableEq

/-- The spec declares four error kinds (ConfigurationError,
MalformedRecord, UnknownIdentifier, MissingSourceData).  `indexError`
and `numericParse` are outside that list. -/
def Err.isDeclaredKind : Err → Bool
  | .invalidMajor _ => true
  | .malformedLine _ => true
  | .unknownIdentifier => true
  | .missingSourceData => true
  | .indexError => false
  | .numericParse => false

/-- `str.split(delim)` on a character list: splits at every occurrence
of `delim`, keeping empty fields (Python semantics for a non-empty
separator). `acc` holds the current field reversed. -/
def splitAux (delim : Char) : List Char → List Char → List String
  | [], acc => [String.mk acc.reverse]
  | c :: cs, acc =>
    if c = delim then String.mk acc.reverse :: splitAux delim cs []
    else splitAux delim cs (c :: acc)

/-- `line.strip()`: drop leading and trailing whitespace. -/
def pyStrip (s : String) : String :=
  String.mk (((s.data.dropWhile Char.isWhitespace).reverse.dropWhile Char.isWhitespace).reverse)

/-- `line.strip().split(delimiter)`. -/
def pySplit (delim : Char) (line : String) : List String :=
  splitAux delim (pyStrip line).data []

/-- Value of a digit string (caller checks all characters are digits). -/
def digitsVal (l : List Char) : Nat :=
  l.foldl (fun a c => a * 10 + (c.toNat - 48)) 0

/-- Nonempty and all decimal digits. -/
def isDigits (l : List Char) : Bool :=
  !l.isEmpty && l.all (·.isDigit)

/-- `int(s)`: optional sign followed by decimal digits. -/
def parseInt? (s : String) : Option Int :=
  match s.data with
  | '-' :: rest => if isDigits rest then some (-(digitsVal rest : Int)) else none
  | '+' :: rest => if isDigits rest then some ((digitsVal rest : Int)) else none
  | l => if isDigits l then some ((digitsVal l : Int)) else none

/-- Magnitude of a decimal literal: `digits` or `digits.digits`
(either side possibly empty, not both).  The value
`intpart + fracpart / 10 ^ fraclen` is assembled with `mkRat`. -/
def parseRatMag? (l : List Char) : Option Rat :=
  match splitAux '.' l [] with
  | [a] => if isDigits a.data then some (mkRat (digitsVal a.data) 1) else none
  | [a, b] =>
    if a.data.all (·.isDigit) && b.data.all (·.isDigit) && !(a.data.isEmpty && b.data.isEmpty) then
      some (mkRat (digitsVal a.data * 10 ^ b.data.length + digitsVal b.data) (10 ^ b.data.length))
    else none
  | _ => none

/-- `float(s)`: optional sign followed by a decimal literal. -/
def parseRat? (s : String) : Option Rat :=
  match s.data with
  | '-' :: rest => (parseRatMag? rest).map (fun q => -q)
  | '+' :: rest => parseRatMag? rest
  | l => parseRatMag? l

/-- State threaded through `_build_maps`:
the two maps plus the running counters `u_id` and `i_id`. -/
structure BuildState where
  user_id_map : IdMap
  item_id_map : IdMap
  u_id : Nat
  i_id : Nat

deriving Repr, DecidableEq

/-- Lines 105-107: if the raw user id is new, append it with the next
dense index and bump `u_id`. -/
def insUser (st : BuildState) (uraw : Int) : BuildState :=
  if (st.user_id_map.lookup uraw).isSome then st
  else { st with user_id_map := st.user_id_map ++ [(uraw, st.u_id)], u_id := st.u_id + 1 }

/-- Lines 111-113: if the raw item id is new, append it with the next
dense index and bump `i_id`. -/
def insItem (st : BuildState) (iraw : Int) : BuildState :=
  if (st.item_id_map.lookup iraw).isSome then st
  else { st with item_id_map := st.item_id_map ++ [(iraw, st.i_id)], i_id := st.i_id + 1 }

/-- One line of the `_build_maps` scan (`input_layer.py` lines 99-113):
malformed-line check, then parse the user field and insert it if new,
then parse the item field and insert it if new. -/
def buildMapsLine (uInd iInd : Nat) (delim : Char) (file : String) (line : String)
    (st : BuildState) : Except Err BuildState :=
  let parts := pySplit delim line
  if parts.length < 3 then .error (.malformedLine file)
  else
    match parts[uInd]? with
    | none => .error .indexError
    | some ustr =>
      match parseInt? ustr with
      | none => .error .numericParse
      | some uraw =>
        let st1 := insUser st uraw
        match parts[iInd]? with
        | none => .error .indexError
        | some istr =>
          match parseInt? istr with
          | none => .error .numericParse
          | some iraw => .ok (insItem st1 iraw)

/-- Fold a fallible per-line action over the lines of one file,
aborting at the first error. -/
def foldLinesE {σ : Type} (f : String → String → σ → Except Err σ) (file : String) :
    List String → σ → Except Err σ
  | [], st => .ok st
  | l :: ls, st =>
    match f file l st with
    | .error e => .error e
    | .ok st1 => foldLinesE f file ls st1

/-- Fold a fallible per-line action over every file of the corpus in
order, aborting at the first error. -/
def foldCorpusE {σ : Type} (f : String → String → σ → Except Err σ) :
    Corpus → σ → Except Err σ
  | [], st => .ok st
  | fl :: rest, st =>
    match foldLinesE f fl.1 fl.2 st with
    | .error e => .error e
    | .ok st1 => foldCorpusE f rest st1

/-- `_build_maps` (lines 80-113): scan the whole corpus, assigning dense
indices to raw user and item ids in first-occurrence order. -/
def buildMaps (uInd iInd : Nat) (delim : Char) (corpus : Corpus) : Except Err BuildState :=
  foldCorpusE (buildMapsLine uInd iInd delim) corpus ⟨[], [], 0, 0⟩

/-- `self.data` update (lines 76-78): append the pair to the key's
list, creating the key (at the end, dict insertion order) if absent. -/
def aggInsert (data : AggTable) (key : Nat) (v : Nat × Rat) : AggTable :=
  if (data.lookup key).isSome then
    data.map (fun kv => if kv.1 = key then (kv.1, kv.2 ++ [v]) else kv)
  else data ++ [(key, [v])]

/-- One line of the aggregation scan in `__init__` (lines 62-78):
malformed-line check, then `major_map[int(parts[major_ind])]`,
`minor_map[int(parts[minor_ind])]`, `float(parts[r_id])`, in that
order, then the table update. -/
def aggLine (majorInd minorInd rInd : Nat) (delim : Char) (major_map minor_map : IdMap)
    (file : String) (line : String) (data : AggTable) : Except Err AggTable :=
  let parts := pySplit delim line
  if parts.length < 3 then .error (.malformedLine file)
  else
    match parts[majorInd]? with
    | none => .error .indexError
    | some mstr =>
      match parseInt? mstr with
      | none => .error .numericParse
      | some mraw =>
        match major_map.lookup mraw with
        | none => .error .unknownIdentifier
        | some key =>
          match parts[minorInd]? with
          | none => .error .indexError
          | some nstr =>
            match parseInt? nstr with
            | none => .error .numericParse
            | some nraw =>
              match minor_map.lookup nraw with
              | none => .error .unknownIdentifier
              | some value =>
                match parts[rInd]? with
                | none => .error .indexError
                | some rstr =>
                  match parseRat? rstr with
                  | none => .error .numericParse
                  | some rating => .ok (aggInsert data key (value, rating))

/-- Constructor configuration (`params`), with the source's defaults.
`data_dir`/`extension` are subsumed by the `Corpus` argument. -/
structure Params where
  batch_size : Nat
  itemIdInd : Nat := 0
  userIdInd : Nat := 1
  ratingInd : Nat := 2
  major : String := "items"
  delimiter : Char := '\t'

deriving Repr, DecidableEq

/-- The constructed provider: the fields `__init__` leaves behind.
`src_data` is only ever assigned by external callers, so construction
leaves it `none`. -/
structure Provider where
  batch_size : Nat
  user_id_map : IdMap
  item_id_map : IdMap
  vector_dim : Nat
  data : AggTable
  src_data : Option AggTable := none

deriving Repr, DecidableEq, Inhabited

/-- `self._major_ind` (line 36). -/
def Params.majorInd (p : Params) : Nat :=
  if p.major = "items" then p.itemIdInd else p.userIdInd

/-- `self._minor_ind` (line 37). -/
def Params.minorInd (p : Params) : Nat :=
  if p.major = "items" then p.userIdInd else p.itemIdInd

/-- `UserItemRecDataProvider.__init__` (lines 12-78): validate `major`;
build the maps unless both were supplied; select major/minor maps; set
`vector_dim := len(minor_map)`; aggregate the corpus into `self.data`. -/
def mkProvider (p : Params) (corpus : Corpus) (user_id_map item_id_map : Option IdMap) :
    Except Err Provider :=
  if p.major = "items" ∨ p.major = "users" then
    let mapsE : Except Err (IdMap × IdMap) :=
      match user_id_map, item_id_map with
      | some um, some im => .ok (um, im)
      | _, _ =>
        match buildMaps p.userIdInd p.itemIdInd p.delimiter corpus with
        | .error e => .error e
        | .ok st => .ok (st.user_id_map, st.item_id_map)
    match mapsE with
    | .error e => .error e
    | .ok maps =>
      let major_map := if p.major = "items" then maps.2 else maps.1
      let minor_map := if p.major = "items" then maps.1 else maps.2
      match foldCorpusE (aggLine p.majorInd p.minorInd p.ratingInd p.delimiter major_map minor_map) corpus [] with
      | .error e => .error e
      | .ok data =>
        .ok { batch_size := p.batch_size, user_id_map := maps.1, item_id_map := maps.2,
              vector_dim := minor_map.length, data := data, src_data := none }
  else .error (.invalidMajor p.major)

/-- A sparse mini-batch: `torch.sparse.FloatTensor(i_torch, v_torch,
torch.Size([rows, cols]))`, kept as the raw index/value lists plus the
declared shape. -/
structure Batch where
  inds1 : List Nat
  inds2 : List Nat
  vals : List Rat
  rows : Nat
  cols : Nat

deriving Repr, DecidableEq, Inhabited

/-- `data[keys[ind]]`: the interaction list of a key (keys always come
from the table, so the default is never hit in the source). -/
def rowEntries (data : AggTable) (k : Nat) : List (Nat × Rat) :=
  (data.lookup k).getD []

/-- The inner `for ind in range(s_ind, e_ind)` of `iterate_one_epoch`
(lines 122-130), counting `cnt = e_ind - ind` down: per key append its
column indices to `inds2`, `local_ind` repeated to `inds1`, and its
ratings to `vals`, then increment `local_ind`. -/
def batchTriples (data : AggTable) (keys : List Nat) :
    Nat → Nat → Nat → List Nat × List Nat × List Rat
  | _, 0, _ => ([], [], [])
  | ind, cnt + 1, localInd =>
    let es := rowEntries data (keys.getD ind 0)
    let rest := batchTriples data keys (ind + 1) cnt (localInd + 1)
    (List.replicate es.length localInd ++ rest.1,
     es.map Prod.fst ++ rest.2.1,
     es.map Prod.snd ++ rest.2.2)

/-- One mini-batch of `iterate_one_epoch` (lines 122-135), built from
the key window `[s, e)` with shape `(batch_size, vector_dim)`. -/
def mkBatch (data : AggTable) (keys : List Nat) (bs vdim s e : Nat) : Batch :=
  let t := batchTriples data keys s (e - s) 0
  { inds1 := t.1, inds2 := t.2.1, vals := t.2.2, rows := bs, cols := vdim }

/-- The `while e_ind < len(keys)` loop of `iterate_one_epoch`
(lines 119-138), fuel-indexed: emit the batch for `[s_ind, e_ind)` and
advance both cursors by `batch_size`.  Exhausted fuel yields no further
batches; `epochLoop_stable` below shows fuel `keys.length` suffices
whenever `batch_size ≥ 1`. -/
def epochLoopAux (data : AggTable) (bs vdim : Nat) (keys : List Nat) :
    Nat → Nat → Nat → List Batch
  | 0, _, _ => []
  | fuel + 1, s, e =>
    if e < keys.length then
      mkBatch data keys bs vdim s e :: epochLoopAux data bs vdim keys fuel (s + bs) (e + bs)
    else []

/-- `iterate_one_epoch` (lines 115-138).  `keys` is the shuffled
`list(data.keys())`; the caller supplies the permutation `shuffle`
produced.  Starts at `s_ind = 0`, `e_ind = batch_size`. -/
def iterate_one_epoch (prov : Provider) (keys : List Nat) : List Batch :=
  epochLoopAux prov.data prov.batch_size prov.vector_dim keys keys.length 0 prov.batch_size

/-- One element yielded by `iterate_one_epoch_eval`: the (target,
source) pair of single-row matrices, plus — when `for_inf` — the key
just processed (`keys[s_ind - 1]`). -/
structure EvalElem where
  target : Batch
  source : Batch
  key : Option Nat

deriving Repr, DecidableEq, Inhabited

/-- The body of one `iterate_one_epoch_eval` step (lines 144-164) on
key `k`: build the single-row target matrix from `self.data`, then the
source matrix from `self.src_data` — failing with `missingSourceData`
when `src_data` is unset (`AttributeError`) or lacks the key
(`KeyError`). -/
def evalStep (data : AggTable) (srcData : Option AggTable) (vdim : Nat) (forInf : Bool)
    (k : Nat) : Except Err EvalElem :=
  let es := rowEntries data k
  match srcData with
  | none => .error .missingSourceData
  | some src =>
    match src.lookup k with
    | none => .error .missingSourceData
    | some ses =>
      .ok { target := { inds1 := List.replicate es.length 0, inds2 := es.map Prod.fst,
                        vals := es.map Prod.snd, rows := 1, cols := vdim },
            source := { inds1 := List.replicate ses.length 0, inds2 := ses.map Prod.fst,
                        vals := ses.map Prod.snd, rows := 1, cols := vdim },
            key := if forInf then some k else none }

/-- The `while s_ind < len(keys)` loop of `iterate_one_epoch_eval`
(lines 143-164) as a generator trace: the elements yielded before the
first failure, paired with that failure if one occurred. -/
def evalLoop (data : AggTable) (srcData : Option AggTable) (vdim : Nat) (forInf : Bool) :
    List Nat → List EvalElem × Option Err
  | [] => ([], none)
  | k :: ks =>
    match evalStep data srcData vdim forInf k with
    | .error e => ([], some e)
    | .ok el =>
      let rest := evalLoop data srcData vdim forInf ks
      (el :: rest.1, rest.2)

/-- `iterate_one_epoch_eval` (lines 140-164): walk
`list(self.data.keys())` in table order. -/
def iterate_one_epoch_eval (prov : Provider) (forInf : Bool) : List EvalElem × Option Err :=
  evalLoop prov.data prov.src_data prov.vector_dim forInf (prov.data.map Prod.fst)

/-! ### Infrastructure: folds over the flattened corpus -/

/-- The corpus flattened to (file, line) pairs, files in enumeration
order and lines in file order. -/
def flattenCorpus (c : Corpus) : List (String × String) :=
  c.flatMap (fun fl => fl.2.map (fun l => (fl.1, l)))

/-- `foldCorpusE` reformulated on the flattened (file, line) list. -/
def foldFlatE {σ : Type} (f : String → String → σ → Except Err σ) :
    List (String × String) → σ → Except Err σ
  | [], st => .ok st
  | fl :: rest, st =>
    match f fl.1 fl.2 st with
    | .error e => .error e
    | .ok st1 => foldFlatE f rest st1

/-- Success discriminator for `Except`. -/
def isOkE {ε α : Type} : Except ε α → Bool
  | .ok _ => true
  | .error _ => false

def mapKeys (m : IdMap) : List Int := m.map Prod.fst

def mapVals (m : IdMap) : List Nat := m.map Prod.snd

/-! ### Characterizing `_build_maps` -/

/-- The raw user id a line contributes: field `uInd` of the split line,
parsed as an integer. -/
def lineUId? (uInd : Nat) (delim : Char) (line : String) : Option Int :=
  ((pySplit delim line)[uInd]?).bind parseInt?

/-- The raw item id a line contributes. -/
def lineIId? (iInd : Nat) (delim : Char) (line : String) : Option Int :=
  ((pySplit delim line)[iInd]?).bind parseInt?

/-- All raw user ids of the flattened corpus, in scan order. -/
def uIdsOf (uInd : Nat) (delim : Char) (ls : List (String × String)) : List Int :=
  ls.filterMap (fun fl => lineUId? uInd delim fl.2)

/-- All raw item ids of the flattened corpus, in scan order. -/
def iIdsOf (iInd : Nat) (delim : Char) (ls : List (String × String)) : List Int :=
  ls.filterMap (fun fl => lineIId? iInd delim fl.2)

/-- Modelled from the spec phrase "first-seen order": the subsequence
of first occurrences of ids not already in `seen`. -/
def firstSeen (seen : List Int) : List Int → List Int
  | [] => []
  | x :: xs => if x ∈ seen then firstSeen seen xs else x :: firstSeen (x :: seen) xs

/-- Pair each id with consecutive dense indices starting at `n`. -/
def enumFrom (n : Nat) : List Int → IdMap
  | [] => []
  | x :: xs => (x, n) :: enumFrom (n + 1) xs

/-! ### Line-level success and error characterizations -/

/-- The rating a line contributes: field `rInd`, parsed as a float. -/
def lineRat? (rInd : Nat) (delim : Char) (line : String) : Option Rat :=
  ((pySplit delim line)[rInd]?).bind parseRat?

/-- Whether one line passes the `_build_maps` scan: well-formed and
both id fields parse.  (Success is independent of the running state.) -/
def buildLineOk (uInd iInd : Nat) (delim : Char) (line : String) : Bool :=
  if (pySplit delim line).length < 3 then false
  else (lineUId? uInd delim line).isSome && (lineIId? iInd delim line).isSome

/-- Whether one line passes the aggregation scan of `__init__`:
well-formed, both id fields parse and are known to their maps, and the
rating parses.  (Success is independent of the accumulated table.) -/
def aggLineOk (majorInd minorInd rInd : Nat) (delim : Char) (mm nm : IdMap) (line : String) :
    Bool :=
  if (pySplit delim line).length < 3 then false
  else
    (match ((pySplit delim line)[majorInd]?).bind parseInt? with
     | none => false
     | some mraw => (mm.lookup mraw).isSome) &&
    (match ((pySplit delim line)[minorInd]?).bind parseInt? with
     | none => false
     | some nraw => (nm.lookup nraw).isSome) &&
    (lineRat? rInd delim line).isSome

/-- All minor indices stored in the table lie in `mapVals nm`. -/
def TableVals (nm : IdMap) (data : AggTable) : Prop :=
  ∀ kv ∈ data, ∀ v ∈ kv.2, v.1 ∈ mapVals nm

/-! ### Eval loop lemmas -/

/-- The element `iterate_one_epoch_eval` yields for key `k` when the
source table has the key. -/
def evalElemOf (data : AggTable) (src : AggTable) (vdim : Nat) (forInf : Bool) (k : Nat) :
    EvalElem :=
  { target := { inds1 := List.replicate (rowEntries data k).length 0,
                inds2 := (rowEntries data k).map Prod.fst,
                vals := (rowEntries data k).map Prod.snd, rows := 1, cols := vdim },
    source := { inds1 := List.replicate (rowEntries src k).length 0,
                inds2 := (rowEntries src k).map Prod.fst,
                vals := (rowEntries src k).map Prod.snd, rows := 1, cols := vdim },
    key := if forInf then some k else none }

/-! ### Concrete instances (the spec's §8 example corpus) -/

/-- The spec's example corpus: three `item \t user \t rating` lines in
one file. -/
def exampleCorpus : Corpus := [("data/f.txt", ["0\t0\t5.0", "1\t0\t3.0", "0\t1\t4.0"])]

/-- Default configuration with `batch_size = 1` (the example's). -/
def exampleParams : Params := { batch_size := 1 }

/-- The provider the example corpus constructs: item map `{0:0, 1:1}`,
user map `{0:0, 1:1}`, table `{0: [(0,5),(1,4)], 1: [(0,3)]}`. -/
def exampleProvider : Provider :=
  { batch_size := 1, user_id_map := [(0, 0), (1, 1)], item_id_map := [(0, 0), (1, 1)],
    vector_dim := 2, data := [(0, [(0, 5), (1, 4)]), (1, [(0, 3)])], src_data := none }

/-- The `_build_maps` state for the example corpus. -/
def exampleBuildState : BuildState :=
  { user_id_map := [(0, 0), (1, 1)], item_id_map := [(0, 0), (1, 1)], u_id := 2, i_id := 2 }

/-- The single batch one epoch of the example yields (keys `[0, 1]`). -/
def exampleBatch : Batch :=
  { inds1 := [0, 0], inds2 := [0, 1], vals := [5, 4], rows := 1, cols := 2 }

/-- The example provider with an eval source table covering both keys. -/
def exampleProviderWithSrc : Provider :=
  { exampleProvider with src_data := some [(0, [(0, 5), (1, 4)]), (1, [(0, 3)])] }

/-- The example provider with a source table missing key 1. -/
def srcGapProvider : Provider :=
  { exampleProvider with src_data := some [(0, [(0, 5), (1, 4)])] }

/-- The provider built from an empty corpus. -/
def emptyProvider : Provider :=
  { batch_size := 1, user_id_map := [], item_id_map := [], vector_dim := 0,
    data := [], src_data := none }

/-- A provider whose construction parameters had `batch_size = 0`
(accepted unchecked by `__init__`). -/
def zeroBatchProvider : Provider :=
  { batch_size := 0, user_id_map := [(0, 0)], item_id_map := [(0, 0)],
    vector_dim := 1, data := [(0, [(0, 5)])], src_data := none }

/-! ## Theorems -/

theorem foldLinesE_eq_foldFlat {σ : Type} (f : String → String → σ → Except Err σ)
    (file : String) (ls : List String) (st : σ) :
    foldLinesE f file ls st = foldFlatE f (ls.map (fun l => (file, l))) st := by
  induction ls generalizing st with
  | nil => rfl
  | cons l ls ih =>
    simp only [foldLinesE, List.map, foldFlatE]
    cases f file l st with
    | error e => rfl
    | ok st1 => exact ih st1

theorem foldFlatE_append {σ : Type} (f : String → String → σ → Except Err σ)
    (l1 l2 : List (String × String)) (st : σ) :
    foldFlatE f (l1 ++ l2) st =
      match foldFlatE f l1 st with
      | .error e => .error e
      | .ok st1 => foldFlatE f l2 st1 := by
  induction l1 generalizing st with
  | nil => rfl
  | cons fl rest ih =>
    simp only [List.cons_append, foldFlatE]
    cases f fl.1 fl.2 st with
    | error e => rfl
    | ok st1 => exact ih st1

theorem foldCorpusE_eq_foldFlat {σ : Type} (f : String → String → σ → Except Err σ)
    (c : Corpus) (st : σ) :
    foldCorpusE f c st = foldFlatE f (flattenCorpus c) st := by
  induction c generalizing st with
  | nil => rfl
  | cons fl rest ih =>
    simp only [foldCorpusE, flattenCorpus, List.flatMap_cons]
    rw [foldLinesE_eq_foldFlat, foldFlatE_append]
    cases foldFlatE f (fl.2.map (fun l => (fl.1, l))) st with
    | error e => rfl
    | ok st1 => exact ih st1

/-- When each step's success depends only on the line (not the state),
the fold succeeds exactly when every line is good. -/
theorem foldFlatE_isOk_eq {σ : Type} (f : String → String → σ → Except Err σ)
    (g : String → String → Bool)
    (hf : ∀ file l st, isOkE (f file l st) = g file l) :
    ∀ (ls : List (String × String)) (st : σ),
      isOkE (foldFlatE f ls st) = ls.all (fun fl => g fl.1 fl.2) := by
  intro ls
  induction ls with
  | nil => intro st; rfl
  | cons fl rest ih =>
    intro st
    simp only [foldFlatE, List.all_cons]
    cases hstep : f fl.1 fl.2 st with
    | error e =>
      have := hf fl.1 fl.2 st
      rw [hstep] at this
      simp [isOkE, ← this]
    | ok st1 =>
      have := hf fl.1 fl.2 st
      rw [hstep] at this
      simp [isOkE] at this
      simp [← this, ih st1]

/-- If every per-step error on a line of `ls` satisfies `Q`, so does
any error of the fold over `ls`. -/
theorem foldFlatE_error_shape {σ : Type} (f : String → String → σ → Except Err σ)
    (Q : Err → Prop) :
    ∀ (ls : List (String × String)),
      (∀ fl ∈ ls, ∀ (st : σ) (e : Err), f fl.1 fl.2 st = .error e → Q e) →
      ∀ (st : σ) (e : Err), foldFlatE f ls st = .error e → Q e := by
  intro ls
  induction ls with
  | nil => intro _ st e h; exact absurd h (by simp [foldFlatE])
  | cons fl rest ih =>
    intro hf st e h
    simp only [foldFlatE] at h
    cases hstep : f fl.1 fl.2 st with
    | error e1 =>
      rw [hstep] at h
      have he : e1 = e := by injection h
      exact he ▸ hf fl (List.mem_cons_self fl rest) st e1 hstep
    | ok st1 =>
      rw [hstep] at h
      exact ih (fun fl2 h2 => hf fl2 (List.mem_cons_of_mem fl h2)) st1 e h

/-- If all lines of a prefix are good (success is state-independent)
and a line fails identically from every state, the fold returns that
line's error. -/
theorem foldFlatE_first_bad {σ : Type} (f : String → String → σ → Except Err σ)
    (g : String → String → Bool)
    (hf : ∀ file l st, isOkE (f file l st) = g file l)
    (fb : String × String) (eBad : Err)
    (hbadline : ∀ st : σ, f fb.1 fb.2 st = .error eBad) :
    ∀ (ls1 : List (String × String)), (∀ fl ∈ ls1, g fl.1 fl.2 = true) →
      ∀ (rest : List (String × String)) (st : σ),
        foldFlatE f (ls1 ++ fb :: rest) st = .error eBad := by
  intro ls1
  induction ls1 with
  | nil =>
    intro _ rest st
    simp only [List.nil_append, foldFlatE]
    rw [hbadline st]
  | cons fl ls ih =>
    intro hgood rest st
    simp only [List.cons_append, foldFlatE]
    cases hstep : f fl.1 fl.2 st with
    | error e1 =>
      have := hf fl.1 fl.2 st
      rw [hstep] at this
      simp [isOkE, hgood fl (List.mem_cons_self fl ls)] at this
    | ok st1 =>
      exact ih (fun fl2 h2 => hgood fl2 (List.mem_cons_of_mem fl h2)) rest st1

/-- A fold invariant: preserved by every successful step. -/
theorem foldFlatE_inv {σ : Type} (f : String → String → σ → Except Err σ)
    (P : σ → Prop) (hstep : ∀ file l st st1, f file l st = .ok st1 → P st → P st1) :
    ∀ (ls : List (String × String)) (st st1 : σ),
      foldFlatE f ls st = .ok st1 → P st → P st1 := by
  intro ls
  induction ls with
  | nil =>
    intro st st1 h hP
    simp only [foldFlatE] at h
    cases h
    exact hP
  | cons fl rest ih =>
    intro st st1 h hP
    simp only [foldFlatE] at h
    cases hs : f fl.1 fl.2 st with
    | error e => rw [hs] at h; cases h
    | ok st2 =>
      rw [hs] at h
      exact ih st2 st1 h (hstep fl.1 fl.2 st st2 hs hP)

/-! ### Association-list lookup lemmas -/

theorem lookup_isSome_iff {α β : Type} [BEq α] [LawfulBEq α] (m : List (α × β)) (k : α) :
    (m.lookup k).isSome ↔ k ∈ m.map Prod.fst := by
  induction m with
  | nil => simp [List.lookup]
  | cons kv rest ih =>
    cases kv with
    | mk a b =>
      simp only [List.lookup, List.map, List.mem_cons]
      by_cases h : k = a
      · simp [h]
      · have : (k == a) = false := by simp [h]
        simp [this, ih, h]

theorem lookup_eq_some_mem {α β : Type} [BEq α] [LawfulBEq α] (m : List (α × β))
    (k : α) (v : β) (h : m.lookup k = some v) : (k, v) ∈ m := by
  induction m with
  | nil => simp [List.lookup] at h
  | cons kv rest ih =>
    cases kv with
    | mk a b =>
      simp only [List.lookup] at h
      by_cases hk : k = a
      · subst hk
        simp at h
        simp [h]
      · have : (k == a) = false := by simp [hk]
        rw [this] at h
        simp only [List.mem_cons]
        exact Or.inr (ih h)

theorem lookup_val_mem (m : IdMap) (k : Int) (v : Nat) (h : m.lookup k = some v) :
    v ∈ mapVals m := by
  have := lookup_eq_some_mem m k v h
  exact List.mem_map.mpr ⟨(k, v), this, rfl⟩

theorem enumFrom_keys (n : Nat) (l : List Int) : mapKeys (enumFrom n l) = l := by
  induction l generalizing n with
  | nil => rfl
  | cons x xs ih => simp [enumFrom, mapKeys] at ih ⊢; exact ih (n + 1)

theorem enumFrom_vals (n : Nat) (l : List Int) :
    mapVals (enumFrom n l) = List.range' n l.length := by
  induction l generalizing n with
  | nil => rfl
  | cons x xs ih => simp [enumFrom, mapVals, List.range'] at ih ⊢; exact ih (n + 1)

theorem enumFrom_length (n : Nat) (l : List Int) : (enumFrom n l).length = l.length := by
  induction l generalizing n with
  | nil => rfl
  | cons x xs ih => simp [enumFrom]; exact ih (n + 1)

theorem firstSeen_congr (s1 s2 : List Int) (l : List Int) (h : ∀ y, y ∈ s1 ↔ y ∈ s2) :
    firstSeen s1 l = firstSeen s2 l := by
  induction l generalizing s1 s2 with
  | nil => rfl
  | cons x xs ih =>
    simp only [firstSeen]
    by_cases hx : x ∈ s1
    · rw [if_pos hx, if_pos ((h x).mp hx)]
      exact ih s1 s2 h
    · rw [if_neg hx, if_neg (fun hc => hx ((h x).mpr hc))]
      refine congrArg _ (ih _ _ ?_)
      intro y
      simp only [List.mem_cons]
      exact or_congr Iff.rfl (h y)

theorem firstSeen_mem (seen l : List Int) (x : Int) :
    x ∈ firstSeen seen l ↔ x ∈ l ∧ x ∉ seen := by
  induction l generalizing seen with
  | nil => simp [firstSeen]
  | cons a as ih =>
    simp only [firstSeen]
    by_cases ha : a ∈ seen
    · rw [if_pos ha, ih]
      constructor
      · rintro ⟨h1, h2⟩
        exact ⟨List.mem_cons_of_mem a h1, h2⟩
      · rintro ⟨h1, h2⟩
        rcases List.mem_cons.mp h1 with rfl | h1
        · exact absurd ha h2
        · exact ⟨h1, h2⟩
    · rw [if_neg ha]
      simp only [List.mem_cons, ih, List.mem_cons]
      constructor
      · rintro (rfl | ⟨h1, h2⟩)
        · exact ⟨Or.inl rfl, ha⟩
        · exact ⟨Or.inr h1, fun hc => h2 (Or.inr hc)⟩
      · rintro ⟨rfl | h1, h2⟩
        · exact Or.inl rfl
        · by_cases hxa : x = a
          · exact Or.inl hxa
          · exact Or.inr ⟨h1, fun hc => hc.elim hxa h2⟩

theorem firstSeen_nodup (seen l : List Int) : (firstSeen seen l).Nodup := by
  induction l generalizing seen with
  | nil => exact List.nodup_nil
  | cons a as ih =>
    simp only [firstSeen]
    by_cases ha : a ∈ seen
    · rw [if_pos ha]; exact ih seen
    · rw [if_neg ha]
      refine List.nodup_cons.mpr ⟨?_, ih (a :: seen)⟩
      intro hc
      exact ((firstSeen_mem _ _ _).mp hc).2 (List.mem_cons_self a seen)

theorem insUser_item_map (st : BuildState) (uraw : Int) :
    (insUser st uraw).item_id_map = st.item_id_map := by
  unfold insUser; split <;> rfl

theorem insUser_i_id (st : BuildState) (uraw : Int) : (insUser st uraw).i_id = st.i_id := by
  unfold insUser; split <;> rfl

theorem insItem_user_map (st : BuildState) (iraw : Int) :
    (insItem st iraw).user_id_map = st.user_id_map := by
  unfold insItem; split <;> rfl

theorem insItem_u_id (st : BuildState) (iraw : Int) : (insItem st iraw).u_id = st.u_id := by
  unfold insItem; split <;> rfl

/-- Inversion of a successful `_build_maps` line: the user and item
fields parse, and the new state is the two conditional inserts. -/
theorem buildMapsLine_ok_char (uInd iInd : Nat) (delim : Char) (file line : String)
    (st st1 : BuildState) (h : buildMapsLine uInd iInd delim file line st = .ok st1) :
    ∃ uraw iraw, lineUId? uInd delim line = some uraw ∧ lineIId? iInd delim line = some iraw ∧
      st1 = insItem (insUser st uraw) iraw := by
  simp only [buildMapsLine] at h
  split at h
  · exact absurd h (by simp)
  · rename_i h3
    cases hg : (pySplit delim line)[uInd]? with
    | none => simp [hg] at h
    | some ustr =>
      cases hp : parseInt? ustr with
      | none => simp [hg, hp] at h
      | some uraw =>
        cases hgi : (pySplit delim line)[iInd]? with
        | none => simp [hg, hp, hgi] at h
        | some istr =>
          cases hpi : parseInt? istr with
          | none => simp [hg, hp, hgi, hpi] at h
          | some iraw =>
            have h2 : insItem (insUser st uraw) iraw = st1 := by
              simpa [hg, hp, hgi, hpi] using h
            exact ⟨uraw, iraw, by simp [lineUId?, hg, hp], by simp [lineIId?, hgi, hpi], h2.symm⟩

/-- The `_build_maps` fold characterized over the flattened corpus:
each map grows by the first-seen new ids, enumerated from the running
counter. -/
theorem buildFlat_ok_char (uInd iInd : Nat) (delim : Char) :
    ∀ (ls : List (String × String)) (st st1 : BuildState),
      foldFlatE (buildMapsLine uInd iInd delim) ls st = .ok st1 →
      st1.user_id_map = st.user_id_map ++
        enumFrom st.u_id (firstSeen (mapKeys st.user_id_map) (uIdsOf uInd delim ls)) ∧
      st1.item_id_map = st.item_id_map ++
        enumFrom st.i_id (firstSeen (mapKeys st.item_id_map) (iIdsOf iInd delim ls)) := by
  intro ls
  induction ls with
  | nil =>
    intro st st1 h
    simp only [foldFlatE] at h
    injection h with h1
    subst h1
    simp [uIdsOf, iIdsOf, firstSeen, enumFrom]
  | cons fl rest ih =>
    intro st st1 h
    simp only [foldFlatE] at h
    cases hs : buildMapsLine uInd iInd delim fl.1 fl.2 st with
    | error e => rw [hs] at h; exact absurd h (by simp)
    | ok st2 =>
      rw [hs] at h
      obtain ⟨uraw, iraw, hu, hi, hst2⟩ := buildMapsLine_ok_char _ _ _ _ _ _ _ hs
      obtain ⟨ihu, ihi⟩ := ih st2 st1 h
      have huIds : uIdsOf uInd delim (fl :: rest) = uraw :: uIdsOf uInd delim rest := by
        simp [uIdsOf, List.filterMap_cons, hu]
      have hiIds : iIdsOf iInd delim (fl :: rest) = iraw :: iIdsOf iInd delim rest := by
        simp [iIdsOf, List.filterMap_cons, hi]
      constructor
      · -- user map part
        rw [huIds]
        have hst2u : st2.user_id_map = (insUser st uraw).user_id_map := by
          rw [hst2, insItem_user_map]
        have hst2uid : st2.u_id = (insUser st uraw).u_id := by
          rw [hst2, insItem_u_id]
        by_cases hmem : uraw ∈ mapKeys st.user_id_map
        · have hl : (st.user_id_map.lookup uraw).isSome := (lookup_isSome_iff _ _).mpr hmem
          have : insUser st uraw = st := by unfold insUser; rw [if_pos hl]
          rw [this] at hst2u hst2uid
          rw [firstSeen, if_pos hmem]
          rw [ihu, hst2u, hst2uid]
        · have hl : ¬ (st.user_id_map.lookup uraw).isSome = true := by
            rw [lookup_isSome_iff]; exact hmem
          have hins : insUser st uraw =
              { st with user_id_map := st.user_id_map ++ [(uraw, st.u_id)],
                        u_id := st.u_id + 1 } := by
            unfold insUser; rw [if_neg hl]
          rw [firstSeen, if_neg hmem]
          rw [ihu, hst2u, hst2uid, hins]
          have hkeys : mapKeys (st.user_id_map ++ [(uraw, st.u_id)]) =
              mapKeys st.user_id_map ++ [uraw] := by simp [mapKeys]
          rw [hkeys]
          rw [firstSeen_congr (mapKeys st.user_id_map ++ [uraw]) (uraw :: mapKeys st.user_id_map)
            _ (by intro y; simp [or_comm])]
          simp [enumFrom, List.append_assoc]
      · -- item map part
        rw [hiIds]
        have hst2i : st2.item_id_map = (insItem (insUser st uraw) iraw).item_id_map := by
          rw [hst2]
        have hiumap : (insUser st uraw).item_id_map = st.item_id_map := insUser_item_map st uraw
        have hiuid : (insUser st uraw).i_id = st.i_id := insUser_i_id st uraw
        by_cases hmem : iraw ∈ mapKeys st.item_id_map
        · have hl : ((insUser st uraw).item_id_map.lookup iraw).isSome := by
            rw [hiumap, lookup_isSome_iff]; exact hmem
          have : insItem (insUser st uraw) iraw = insUser st uraw := by
            unfold insItem; rw [if_pos hl]
          rw [firstSeen, if_pos hmem]
          rw [ihi, hst2, this, hiumap, hiuid]
        · have hl : ¬ ((insUser st uraw).item_id_map.lookup iraw).isSome = true := by
            rw [hiumap, lookup_isSome_iff]; exact hmem
          have hins : insItem (insUser st uraw) iraw =
              { insUser st uraw with
                  item_id_map := (insUser st uraw).item_id_map ++ [(iraw, (insUser st uraw).i_id)],
                  i_id := (insUser st uraw).i_id + 1 } := by
            unfold insItem; rw [if_neg hl]
          rw [firstSeen, if_neg hmem]
          rw [ihi, hst2, hins]
          simp only [hiumap, hiuid]
          have hkeys : mapKeys (st.item_id_map ++ [(iraw, st.i_id)]) =
              mapKeys st.item_id_map ++ [iraw] := by simp [mapKeys]
          rw [hkeys]
          rw [firstSeen_congr (mapKeys st.item_id_map ++ [iraw]) (iraw :: mapKeys st.item_id_map)
            _ (by intro y; simp [or_comm])]
          simp [enumFrom, List.append_assoc]

/-- `_build_maps` on success produces exactly the first-seen
enumeration of the corpus's raw ids, starting at 0. -/
theorem buildMaps_ok_char (uInd iInd : Nat) (delim : Char) (corpus : Corpus) (st : BuildState)
    (h : buildMaps uInd iInd delim corpus = .ok st) :
    st.user_id_map = enumFrom 0 (firstSeen [] (uIdsOf uInd delim (flattenCorpus corpus))) ∧
    st.item_id_map = enumFrom 0 (firstSeen [] (iIdsOf iInd delim (flattenCorpus corpus))) := by
  unfold buildMaps at h
  rw [foldCorpusE_eq_foldFlat] at h
  have := buildFlat_ok_char uInd iInd delim (flattenCorpus corpus) ⟨[], [], 0, 0⟩ st h
  simpa [mapKeys] using this

theorem buildMapsLine_isOk (uInd iInd : Nat) (delim : Char) (file line : String)
    (st : BuildState) :
    isOkE (buildMapsLine uInd iInd delim file line st) = buildLineOk uInd iInd delim line := by
  by_cases h3 : (pySplit delim line).length < 3
  · simp [buildMapsLine, buildLineOk, isOkE, h3]
  · cases hg : (pySplit delim line)[uInd]? with
    | none => simp [buildMapsLine, buildLineOk, lineUId?, isOkE, h3, hg]
    | some ustr =>
      cases hp : parseInt? ustr with
      | none => simp [buildMapsLine, buildLineOk, lineUId?, isOkE, h3, hg, hp]
      | some uraw =>
        cases hgi : (pySplit delim line)[iInd]? with
        | none => simp [buildMapsLine, buildLineOk, lineUId?, lineIId?, isOkE, h3, hg, hp, hgi]
        | some istr =>
          cases hpi : parseInt? istr with
          | none =>
            simp [buildMapsLine, buildLineOk, lineUId?, lineIId?, isOkE, h3, hg, hp, hgi, hpi]
          | some iraw =>
            simp [buildMapsLine, buildLineOk, lineUId?, lineIId?, isOkE, h3, hg, hp, hgi, hpi]

theorem aggLine_isOk (majorInd minorInd rInd : Nat) (delim : Char) (mm nm : IdMap)
    (file line : String) (data : AggTable) :
    isOkE (aggLine majorInd minorInd rInd delim mm nm file line data) =
      aggLineOk majorInd minorInd rInd delim mm nm line := by
  by_cases h3 : (pySplit delim line).length < 3
  · simp [aggLine, aggLineOk, isOkE, h3]
  · cases hm : (pySplit delim line)[majorInd]? with
    | none => simp [aggLine, aggLineOk, isOkE, h3, hm]
    | some mstr =>
      cases hmp : parseInt? mstr with
      | none => simp [aggLine, aggLineOk, isOkE, h3, hm, hmp]
      | some mraw =>
        cases hml : mm.lookup mraw with
        | none => simp [aggLine, aggLineOk, isOkE, h3, hm, hmp, hml]
        | some key =>
          cases hn : (pySplit delim line)[minorInd]? with
          | none => simp [aggLine, aggLineOk, isOkE, h3, hm, hmp, hml, hn]
          | some nstr =>
            cases hnp : parseInt? nstr with
            | none => simp [aggLine, aggLineOk, isOkE, h3, hm, hmp, hml, hn, hnp]
            | some nraw =>
              cases hnl : nm.lookup nraw with
              | none => simp [aggLine, aggLineOk, isOkE, h3, hm, hmp, hml, hn, hnp, hnl]
              | some value =>
                cases hr : (pySplit delim line)[rInd]? with
                | none =>
                  simp [aggLine, aggLineOk, lineRat?, isOkE, h3, hm, hmp, hml, hn, hnp, hnl, hr]
                | some rstr =>
                  cases hrp : parseRat? rstr with
                  | none =>
                    simp [aggLine, aggLineOk, lineRat?, isOkE, h3, hm, hmp, hml, hn, hnp, hnl,
                      hr, hrp]
                  | some rating =>
                    simp [aggLine, aggLineOk, lineRat?, isOkE, h3, hm, hmp, hml, hn, hnp, hnl,
                      hr, hrp]

/-- With a well-formed line, in-range field indices, and maps covering
every id that parses, the only error `_build_maps` can raise on the
line is a numeric-parse failure. -/
theorem buildMapsLine_error_shape (uInd iInd : Nat) (delim : Char) (file line : String)
    (st : BuildState) (e : Err)
    (h3 : ¬ (pySplit delim line).length < 3)
    (hu : uInd < (pySplit delim line).length) (hi : iInd < (pySplit delim line).length)
    (h : buildMapsLine uInd iInd delim file line st = .error e) : e = .numericParse := by
  have hgu : (pySplit delim line)[uInd]? = some ((pySplit delim line)[uInd]) :=
    List.getElem?_eq_getElem hu
  have hgi : (pySplit delim line)[iInd]? = some ((pySplit delim line)[iInd]) :=
    List.getElem?_eq_getElem hi
  simp only [buildMapsLine, if_neg h3, hgu, hgi] at h
  cases hp : parseInt? (pySplit delim line)[uInd] with
  | none => simp [hp] at h; exact h.symm
  | some uraw =>
    cases hpi : parseInt? (pySplit delim line)[iInd] with
    | none => simp [hp, hpi] at h; exact h.symm
    | some iraw => simp [hp, hpi] at h

/-- Same for the aggregation scan. -/
theorem aggLine_error_shape (majorInd minorInd rInd : Nat) (delim : Char) (mm nm : IdMap)
    (file line : String) (data : AggTable) (e : Err)
    (h3 : ¬ (pySplit delim line).length < 3)
    (hmaj : majorInd < (pySplit delim line).length)
    (hmin : minorInd < (pySplit delim line).length)
    (hrat : rInd < (pySplit delim line).length)
    (hmm : ∀ mraw, ((pySplit delim line)[majorInd]?).bind parseInt? = some mraw →
      (mm.lookup mraw).isSome)
    (hnm : ∀ nraw, ((pySplit delim line)[minorInd]?).bind parseInt? = some nraw →
      (nm.lookup nraw).isSome)
    (h : aggLine majorInd minorInd rInd delim mm nm file line data = .error e) :
    e = .numericParse := by
  have hgm : (pySplit delim line)[majorInd]? = some ((pySplit delim line)[majorInd]) :=
    List.getElem?_eq_getElem hmaj
  have hgn : (pySplit delim line)[minorInd]? = some ((pySplit delim line)[minorInd]) :=
    List.getElem?_eq_getElem hmin
  have hgr : (pySplit delim line)[rInd]? = some ((pySplit delim line)[rInd]) :=
    List.getElem?_eq_getElem hrat
  simp only [aggLine, if_neg h3, hgm, hgn, hgr] at h
  cases hmp : parseInt? (pySplit delim line)[majorInd] with
  | none => simp [hmp] at h; exact h.symm
  | some mraw =>
    have hml : (mm.lookup mraw).isSome := hmm mraw (by rw [hgm]; simpa using hmp)
    obtain ⟨key, hkey⟩ := Option.isSome_iff_exists.mp hml
    cases hnp : parseInt? (pySplit delim line)[minorInd] with
    | none => simp [hmp, hkey, hnp] at h; exact h.symm
    | some nraw =>
      have hnl : (nm.lookup nraw).isSome := hnm nraw (by rw [hgn]; simpa using hnp)
      obtain ⟨value, hval⟩ := Option.isSome_iff_exists.mp hnl
      cases hrp : parseRat? (pySplit delim line)[rInd] with
      | none => simp [hmp, hkey, hnp, hval, hrp] at h; exact h.symm
      | some rating => simp [hmp, hkey, hnp, hval, hrp] at h

/-- Inversion of a successful aggregation line: the table is updated by
`aggInsert` with a minor value taken from the minor map. -/
theorem aggLine_ok_char (majorInd minorInd rInd : Nat) (delim : Char) (mm nm : IdMap)
    (file line : String) (data data1 : AggTable)
    (h : aggLine majorInd minorInd rInd delim mm nm file line data = .ok data1) :
    ∃ key value rating, value ∈ mapVals nm ∧ data1 = aggInsert data key (value, rating) := by
  simp only [aggLine] at h
  split at h
  · exact absurd h (by simp)
  · cases hm : (pySplit delim line)[majorInd]? with
    | none => simp [hm] at h
    | some mstr =>
      cases hmp : parseInt? mstr with
      | none => simp [hm, hmp] at h
      | some mraw =>
        cases hml : mm.lookup mraw with
        | none => simp [hm, hmp, hml] at h
        | some key =>
          cases hn : (pySplit delim line)[minorInd]? with
          | none => simp [hm, hmp, hml, hn] at h
          | some nstr =>
            cases hnp : parseInt? nstr with
            | none => simp [hm, hmp, hml, hn, hnp] at h
            | some nraw =>
              cases hnl : nm.lookup nraw with
              | none => simp [hm, hmp, hml, hn, hnp, hnl] at h
              | some value =>
                cases hr : (pySplit delim line)[rInd]? with
                | none => simp [hm, hmp, hml, hn, hnp, hnl, hr] at h
                | some rstr =>
                  cases hrp : parseRat? rstr with
                  | none => simp [hm, hmp, hml, hn, hnp, hnl, hr, hrp] at h
                  | some rating =>
                    have h2 : aggInsert data key (value, rating) = data1 := by
                      simpa [hm, hmp, hml, hn, hnp, hnl, hr, hrp] using h
                    exact ⟨key, value, rating, lookup_val_mem nm nraw value hnl, h2.symm⟩

theorem tableVals_nil (nm : IdMap) : TableVals nm [] := by
  intro kv h
  simp at h

theorem tableVals_aggInsert (nm : IdMap) (data : AggTable) (key : Nat) (v : Nat × Rat)
    (hd : TableVals nm data) (hv : v.1 ∈ mapVals nm) :
    TableVals nm (aggInsert data key v) := by
  intro kv hkv vv hvv
  unfold aggInsert at hkv
  split at hkv
  · obtain ⟨kv0, hkv0, hkveq⟩ := List.mem_map.mp hkv
    by_cases hk : kv0.1 = key
    · rw [if_pos hk] at hkveq
      subst hkveq
      rcases List.mem_append.mp hvv with h1 | h1
      · exact hd kv0 hkv0 vv h1
      · simp at h1
        subst h1
        exact hv
    · rw [if_neg hk] at hkveq
      subst hkveq
      exact hd kv0 hkv0 vv hvv
  · rcases List.mem_append.mp hkv with h1 | h1
    · exact hd kv h1 vv hvv
    · simp at h1
      subst h1
      simp at hvv
      subst hvv
      exact hv

/-! ### Epoch loop lemmas -/

/-- With `batch_size ≥ 1` the training loop is insensitive to any
sufficiently large fuel: it terminates. -/
theorem epochLoopAux_stable (data : AggTable) (bs vdim : Nat) (keys : List Nat) :
    ∀ fuel1 fuel2 s e, keys.length ≤ e + fuel1 * bs → keys.length ≤ e + fuel2 * bs →
      epochLoopAux data bs vdim keys fuel1 s e = epochLoopAux data bs vdim keys fuel2 s e := by
  intro fuel1
  induction fuel1 with
  | zero =>
    intro fuel2 s e h1 h2
    have hne : ¬ e < keys.length := by omega
    cases fuel2 with
    | zero => rfl
    | succ f2 => simp [epochLoopAux, hne]
  | succ f1 ih =>
    intro fuel2 s e h1 h2
    cases fuel2 with
    | zero =>
      have hne : ¬ e < keys.length := by omega
      simp [epochLoopAux, hne]
    | succ f2 =>
      simp only [epochLoopAux]
      by_cases he : e < keys.length
      · rw [if_pos he, if_pos he]
        have h1b : keys.length ≤ (e + bs) + f1 * bs := by
          have hm : (f1 + 1) * bs = f1 * bs + bs := by ring
          omega
        have h2b : keys.length ≤ (e + bs) + f2 * bs := by
          have hm : (f2 + 1) * bs = f2 * bs + bs := by ring
          omega
        rw [ih f2 (s + bs) (e + bs) h1b h2b]
      · rw [if_neg he, if_neg he]

/-- Closed form of the training loop for `batch_size ≥ 1`: starting at
window `[s, s+bs)`, it emits one batch per `j` with `s + (j+1)*bs <
len(keys)` — the count is `(len(keys) - s - 1) / bs`. -/
theorem epochLoopAux_closed_form (data : AggTable) (bs vdim : Nat) (keys : List Nat)
    (hbs : 1 ≤ bs) :
    ∀ fuel s, keys.length ≤ s + bs + fuel * bs →
      epochLoopAux data bs vdim keys fuel s (s + bs) =
        (List.range ((keys.length - s - 1) / bs)).map
          (fun j => mkBatch data keys bs vdim (s + j * bs) (s + j * bs + bs)) := by
  intro fuel
  induction fuel with
  | zero =>
    intro s h
    have hc : (keys.length - s - 1) / bs = 0 := Nat.div_eq_of_lt (by omega)
    simp [epochLoopAux, hc]
  | succ f ih =>
    intro s h
    simp only [epochLoopAux]
    by_cases he : s + bs < keys.length
    · rw [if_pos he]
      have hm : (f + 1) * bs = f * bs + bs := by ring
      have ihs := ih (s + bs) (by omega)
      rw [ihs]
      have hsub : keys.length - s - 1 - bs = keys.length - (s + bs) - 1 := by omega
      have hcount : (keys.length - s - 1) / bs = (keys.length - (s + bs) - 1) / bs + 1 := by
        rw [Nat.div_eq (keys.length - s - 1) bs, if_pos ⟨by omega, by omega⟩, hsub]
      rw [hcount, List.range_succ_eq_map]
      simp only [List.map_cons, List.map_map]
      congr 1
      · norm_num
      · apply List.map_congr_left
        intro j hj
        have hs1 : s + bs + j * bs = s + Nat.succ j * bs := by
          have hm2 : Nat.succ j * bs = j * bs + bs := Nat.succ_mul j bs
          omega
        simp only [Function.comp_apply, ← hs1]
    · rw [if_neg he]
      have hc : (keys.length - s - 1) / bs = 0 := Nat.div_eq_of_lt (by omega)
      simp [hc]

/-- `iterate_one_epoch` in closed form (`batch_size ≥ 1`): exactly
`(len(keys) - 1) / batch_size` batches, batch `j` built from the key
window starting at `j * batch_size`. -/
theorem iterate_one_epoch_closed (prov : Provider) (keys : List Nat)
    (hbs : 1 ≤ prov.batch_size) :
    iterate_one_epoch prov keys =
      (List.range ((keys.length - 1) / prov.batch_size)).map
        (fun j => mkBatch prov.data keys prov.batch_size prov.vector_dim
          (j * prov.batch_size) (j * prov.batch_size + prov.batch_size)) := by
  unfold iterate_one_epoch
  have h := epochLoopAux_closed_form prov.data prov.batch_size prov.vector_dim keys hbs
    keys.length 0
    (by
      have h2 : keys.length ≤ keys.length * prov.batch_size :=
        Nat.le_mul_of_pos_right keys.length hbs
      omega)
  simpa using h

/-- Every batch the loop emits is some window batch (window width
`batch_size` when the loop was entered with `e = s + batch_size`). -/
theorem mem_epochLoopAux (data : AggTable) (bs vdim : Nat) (keys : List Nat) :
    ∀ fuel s b, b ∈ epochLoopAux data bs vdim keys fuel s (s + bs) →
      ∃ s0, b = mkBatch data keys bs vdim s0 (s0 + bs) := by
  intro fuel
  induction fuel with
  | zero => intro s b h; simp [epochLoopAux] at h
  | succ f ih =>
    intro s b h
    simp only [epochLoopAux] at h
    by_cases he : s + bs < keys.length
    · rw [if_pos he] at h
      rcases List.mem_cons.mp h with rfl | h1
      · exact ⟨s, rfl⟩
      · have : (s + bs) + bs = (s + bs) + bs := rfl
        exact ih (s + bs) b h1
    · rw [if_neg he] at h
      simp at h

theorem batchTriples_row_bound (data : AggTable) (keys : List Nat) :
    ∀ cnt ind localInd r, r ∈ (batchTriples data keys ind cnt localInd).1 →
      r < localInd + cnt := by
  intro cnt
  induction cnt with
  | zero => intro ind localInd r h; simp [batchTriples] at h
  | succ c ih =>
    intro ind localInd r h
    simp only [batchTriples] at h
    rcases List.mem_append.mp h with h1 | h1
    · have := List.eq_of_mem_replicate h1
      omega
    · have := ih (ind + 1) (localInd + 1) r h1
      omega

theorem rowEntries_val_mem (nm : IdMap) (data : AggTable) (hd : TableVals nm data)
    (k : Nat) (v : Nat × Rat) (hv : v ∈ rowEntries data k) : v.1 ∈ mapVals nm := by
  unfold rowEntries at hv
  cases hlk : data.lookup k with
  | none => rw [hlk] at hv; simp at hv
  | some vs =>
    rw [hlk] at hv
    simp at hv
    exact hd (k, vs) (lookup_eq_some_mem data k vs hlk) v hv

theorem batchTriples_col_bound (nm : IdMap) (data : AggTable) (keys : List Nat)
    (hd : TableVals nm data) :
    ∀ cnt ind localInd c, c ∈ (batchTriples data keys ind cnt localInd).2.1 →
      c ∈ mapVals nm := by
  intro cnt
  induction cnt with
  | zero => intro ind localInd c h; simp [batchTriples] at h
  | succ n ih =>
    intro ind localInd c h
    simp only [batchTriples] at h
    rcases List.mem_append.mp h with h1 | h1
    · obtain ⟨v, hv, hveq⟩ := List.mem_map.mp h1
      exact hveq ▸ rowEntries_val_mem nm data hd _ v hv
    · exact ih (ind + 1) (localInd + 1) c h1

theorem evalStep_ok (data src : AggTable) (vdim : Nat) (forInf : Bool) (k : Nat)
    (h : (src.lookup k).isSome) :
    evalStep data (some src) vdim forInf k = .ok (evalElemOf data src vdim forInf k) := by
  obtain ⟨ses, hses⟩ := Option.isSome_iff_exists.mp h
  simp [evalStep, evalElemOf, hses, rowEntries]

theorem evalLoop_all_ok (data src : AggTable) (vdim : Nat) (forInf : Bool) :
    ∀ ks : List Nat, (∀ k ∈ ks, (src.lookup k).isSome) →
      evalLoop data (some src) vdim forInf ks =
        (ks.map (evalElemOf data src vdim forInf), none) := by
  intro ks
  induction ks with
  | nil => intro _; rfl
  | cons k rest ih =>
    intro hall
    simp only [evalLoop, List.map_cons]
    rw [evalStep_ok data src vdim forInf k (hall k (List.mem_cons_self k rest))]
    rw [ih (fun k2 hk2 => hall k2 (List.mem_cons_of_mem k hk2))]

theorem evalLoop_append_good (data src : AggTable) (vdim : Nat) (forInf : Bool)
    (ks1 ks2 : List Nat) (hgood : ∀ k ∈ ks1, (src.lookup k).isSome) :
    evalLoop data (some src) vdim forInf (ks1 ++ ks2) =
      (ks1.map (evalElemOf data src vdim forInf) ++ (evalLoop data (some src) vdim forInf ks2).1,
       (evalLoop data (some src) vdim forInf ks2).2) := by
  induction ks1 with
  | nil => simp
  | cons k rest ih =>
    have hstep := evalStep_ok data src vdim forInf k (hgood k (List.mem_cons_self k rest))
    have ihr := ih (fun k2 hk2 => hgood k2 (List.mem_cons_of_mem k hk2))
    simp only [List.cons_append, evalLoop, hstep, List.append_eq, ihr, List.map_cons]

/-! ### Corollaries of the build characterization, and `__init__` inversion -/

/-- On success, each map's dense indices are exactly `0, 1, …, len-1`
in insertion order. -/
theorem buildMaps_vals (uInd iInd : Nat) (delim : Char) (corpus : Corpus) (st : BuildState)
    (h : buildMaps uInd iInd delim corpus = .ok st) :
    mapVals st.user_id_map = List.range st.user_id_map.length ∧
    mapVals st.item_id_map = List.range st.item_id_map.length := by
  obtain ⟨hu, hi⟩ := buildMaps_ok_char uInd iInd delim corpus st h
  constructor
  · rw [hu, enumFrom_vals, enumFrom_length, List.range_eq_range']
  · rw [hi, enumFrom_vals, enumFrom_length, List.range_eq_range']

/-- On success, every raw id any corpus line parses to is a key of the
corresponding map. -/
theorem buildMaps_complete (uInd iInd : Nat) (delim : Char) (corpus : Corpus) (st : BuildState)
    (h : buildMaps uInd iInd delim corpus = .ok st) :
    (∀ fl ∈ flattenCorpus corpus, ∀ uraw, lineUId? uInd delim fl.2 = some uraw →
      uraw ∈ mapKeys st.user_id_map) ∧
    (∀ fl ∈ flattenCorpus corpus, ∀ iraw, lineIId? iInd delim fl.2 = some iraw →
      iraw ∈ mapKeys st.item_id_map) := by
  obtain ⟨hu, hi⟩ := buildMaps_ok_char uInd iInd delim corpus st h
  constructor
  · intro fl hfl uraw hparse
    rw [hu, enumFrom_keys, firstSeen_mem]
    refine ⟨List.mem_filterMap.mpr ⟨fl, hfl, hparse⟩, by simp⟩
  · intro fl hfl iraw hparse
    rw [hi, enumFrom_keys, firstSeen_mem]
    refine ⟨List.mem_filterMap.mpr ⟨fl, hfl, hparse⟩, by simp⟩

theorem buildFold_isOk (uInd iInd : Nat) (delim : Char) (ls : List (String × String))
    (st : BuildState) :
    isOkE (foldFlatE (buildMapsLine uInd iInd delim) ls st) =
      ls.all (fun fl => buildLineOk uInd iInd delim fl.2) :=
  foldFlatE_isOk_eq (buildMapsLine uInd iInd delim) (fun _ l => buildLineOk uInd iInd delim l)
    (fun file l st2 => buildMapsLine_isOk uInd iInd delim file l st2) ls st

theorem aggFold_isOk (majorInd minorInd rInd : Nat) (delim : Char) (mm nm : IdMap)
    (ls : List (String × String)) (data : AggTable) :
    isOkE (foldFlatE (aggLine majorInd minorInd rInd delim mm nm) ls data) =
      ls.all (fun fl => aggLineOk majorInd minorInd rInd delim mm nm fl.2) :=
  foldFlatE_isOk_eq (aggLine majorInd minorInd rInd delim mm nm)
    (fun _ l => aggLineOk majorInd minorInd rInd delim mm nm l)
    (fun file l d => aggLine_isOk majorInd minorInd rInd delim mm nm file l d) ls data

/-- Inversion of a successful construction with internally built maps:
recover the `_build_maps` state and the aggregation fold behind each
provider field. -/
theorem mkProvider_ok_char (p : Params) (corpus : Corpus) (prov : Provider)
    (h : mkProvider p corpus none none = .ok prov) :
    ∃ st, buildMaps p.userIdInd p.itemIdInd p.delimiter corpus = .ok st ∧
      prov.user_id_map = st.user_id_map ∧
      prov.item_id_map = st.item_id_map ∧
      prov.batch_size = p.batch_size ∧
      prov.vector_dim =
        (if p.major = "items" then st.user_id_map else st.item_id_map).length ∧
      foldCorpusE (aggLine p.majorInd p.minorInd p.ratingInd p.delimiter
          (if p.major = "items" then st.item_id_map else st.user_id_map)
          (if p.major = "items" then st.user_id_map else st.item_id_map)) corpus []
        = .ok prov.data ∧
      prov.src_data = none := by
  unfold mkProvider at h
  split at h
  · cases hb : buildMaps p.userIdInd p.itemIdInd p.delimiter corpus with
    | error e => simp [hb] at h
    | ok st =>
      cases hagg : foldCorpusE (aggLine p.majorInd p.minorInd p.ratingInd p.delimiter
          (if p.major = "items" then st.item_id_map else st.user_id_map)
          (if p.major = "items" then st.user_id_map else st.item_id_map)) corpus [] with
      | error e => simp [hb, hagg] at h
      | ok data =>
        have h2 :
            ({ batch_size := p.batch_size, user_id_map := st.user_id_map,
               item_id_map := st.item_id_map,
               vector_dim :=
                 (if p.major = "items" then st.user_id_map else st.item_id_map).length,
               data := data, src_data := none } : Provider) = prov := by
          simpa [hb, hagg] using h
        refine ⟨st, rfl, ?_, ?_, ?_, ?_, ?_, ?_⟩ <;> rw [← h2]
        exact hagg
  · exact absurd h (by simp)

theorem flattenCorpus_append (c1 c2 : Corpus) :
    flattenCorpus (c1 ++ c2) = flattenCorpus c1 ++ flattenCorpus c2 := by
  simp [flattenCorpus]

theorem flattenCorpus_cons (fl : String × List String) (c : Corpus) :
    flattenCorpus (fl :: c) = fl.2.map (fun l => (fl.1, l)) ++ flattenCorpus c := by
  simp [flattenCorpus]

/-! ### Claim C2 -/

/-- C2 counterexample: supplying only `user_id_map` (here a junk map)
does not fail with any configuration error — construction succeeds,
rebuilding both maps internally from the corpus. -/
theorem C2_counterexample :
    mkProvider exampleParams exampleCorpus (some [((5 : Int), 9)]) none =
      .ok exampleProvider := by decide

/-- C2 (amended): when exactly one of the two pre-built maps is
supplied, construction raises no error; it behaves exactly as if
neither had been supplied, rebuilding both maps internally. -/
theorem C2_one_map_rebuilds (p : Params) (corpus : Corpus) (um im : IdMap) :
    mkProvider p corpus (some um) none = mkProvider p corpus none none ∧
    mkProvider p corpus none (some im) = mkProvider p corpus none none :=
  ⟨rfl, rfl⟩

/-! ### Claim C8 -/

/-- C8: construction is a deterministic function of the record sequence
and configuration: any two corpora with the same flattened (file, line)
sequence — in particular, the same corpus twice — construct identical
maps and identical providers. -/
theorem C8_deterministic (p : Params) (c1 c2 : Corpus)
    (h : flattenCorpus c1 = flattenCorpus c2) (um im : Option IdMap) :
    buildMaps p.userIdInd p.itemIdInd p.delimiter c1 =
      buildMaps p.userIdInd p.itemIdInd p.delimiter c2 ∧
    mkProvider p c1 um im = mkProvider p c2 um im := by
  constructor
  · unfold buildMaps
    rw [foldCorpusE_eq_foldFlat, foldCorpusE_eq_foldFlat, h]
  · unfold mkProvider buildMaps
    simp only [foldCorpusE_eq_foldFlat, h]

theorem C8_witness :
    flattenCorpus [("f", ["0\t0\t5.0", "1\t0\t3.0"])] =
      flattenCorpus [("f", ["0\t0\t5.0"]), ("f", ["1\t0\t3.0"])] ∧
    mkProvider exampleParams [("f", ["0\t0\t5.0", "1\t0\t3.0"])] none none =
      mkProvider exampleParams [("f", ["0\t0\t5.0"]), ("f", ["1\t0\t3.0"])] none none :=
  ⟨by decide,
   (C8_deterministic exampleParams [("f", ["0\t0\t5.0", "1\t0\t3.0"])]
     [("f", ["0\t0\t5.0"]), ("f", ["1\t0\t3.0"])] (by decide) none none).2⟩

/-! ### Claim C1 -/

/-- C1 counterexample: on the spec's own example (2 major keys,
`batch_size = 1`), one epoch yields exactly 1 batch, not the claimed 2:
the `while e_ind < len(keys)` guard drops the final window even when it
is exactly full. -/
theorem C1_counterexample :
    mkProvider exampleParams exampleCorpus none none = .ok exampleProvider ∧
    iterate_one_epoch exampleProvider [0, 1] = [exampleBatch] ∧
    ¬ (iterate_one_epoch exampleProvider [0, 1]).length = 2 := by decide

/-- C1 (amended): for `batch_size = b ≥ 1` and `n` shuffled keys, one
epoch emits exactly `(n - 1) / b` batches — batch `j` covering the key
window `[j*b, (j+1)*b)` — so the keys from `b * ((n-1)/b)` on (the
trailing partial group, and also the final exactly-full group when `b`
divides `n`) appear in no batch. -/
theorem C1_epoch_batches (prov : Provider) (keys : List Nat) (hbs : 1 ≤ prov.batch_size) :
    (iterate_one_epoch prov keys).length = (keys.length - 1) / prov.batch_size ∧
    iterate_one_epoch prov keys =
      (List.range ((keys.length - 1) / prov.batch_size)).map
        (fun j => mkBatch prov.data keys prov.batch_size prov.vector_dim
          (j * prov.batch_size) (j * prov.batch_size + prov.batch_size)) := by
  have h := iterate_one_epoch_closed prov keys hbs
  exact ⟨by rw [h]; simp, h⟩

theorem C1_witness :
    1 ≤ exampleProvider.batch_size ∧
    (iterate_one_epoch exampleProvider [0, 1]).length =
      (([0, 1] : List Nat).length - 1) / exampleProvider.batch_size :=
  ⟨by decide, (C1_epoch_batches exampleProvider [0, 1] (by decide)).1⟩

/-! ### Claim C9 -/

theorem epochLoopAux_zero_bs_length (data : AggTable) (vdim : Nat) (keys : List Nat)
    (hk : 0 < keys.length) :
    ∀ fuel s, (epochLoopAux data 0 vdim keys fuel s 0).length = fuel := by
  intro fuel
  induction fuel with
  | zero => intro s; rfl
  | succ f ih =>
    intro s
    simp only [epochLoopAux, if_pos hk, List.length_cons]
    rw [ih (s + 0)]

/-- C9 counterexample: with `batch_size = 0` (accepted at construction)
and a non-empty table, the `while` loop never terminates: no fuel bound
stabilizes `epochLoopAux`, its output growing with every extra step. -/
theorem C9_counterexample :
    zeroBatchProvider.batch_size = 0 ∧ zeroBatchProvider.data ≠ [] ∧
    ¬ ∃ N, ∀ m, N ≤ m →
      epochLoopAux zeroBatchProvider.data 0 zeroBatchProvider.vector_dim [0] m 0 0 =
        epochLoopAux zeroBatchProvider.data 0 zeroBatchProvider.vector_dim [0] N 0 0 := by
  refine ⟨rfl, by decide, ?_⟩
  rintro ⟨N, hN⟩
  have h1 := hN (N + 1) (Nat.le_succ N)
  have h2 := congrArg List.length h1
  rw [epochLoopAux_zero_bs_length _ _ _ (by decide) (N + 1) 0,
    epochLoopAux_zero_bs_length _ _ _ (by decide) N 0] at h2
  omega

/-- C9 (amended): for `batch_size ≥ 1` the loop terminates — running it
with any fuel of at least `len(keys)` steps yields the same finite
batch sequence `iterate_one_epoch` produces. -/
theorem C9_terminates (prov : Provider) (keys : List Nat) (hbs : 1 ≤ prov.batch_size) :
    ∀ m, keys.length ≤ m →
      epochLoopAux prov.data prov.batch_size prov.vector_dim keys m 0 prov.batch_size =
        iterate_one_epoch prov keys := by
  intro m hm
  unfold iterate_one_epoch
  apply epochLoopAux_stable
  · have h1 : keys.length * prov.batch_size ≤ m * prov.batch_size :=
      Nat.mul_le_mul_right prov.batch_size hm
    have h2 : keys.length ≤ keys.length * prov.batch_size :=
      Nat.le_mul_of_pos_right keys.length hbs
    omega
  · have h2 : keys.length ≤ keys.length * prov.batch_size :=
      Nat.le_mul_of_pos_right keys.length hbs
    omega

theorem C9_witness :
    (1 ≤ exampleProvider.batch_size ∧ ([0, 1] : List Nat).length ≤ 5) ∧
    epochLoopAux exampleProvider.data exampleProvider.batch_size exampleProvider.vector_dim
      [0, 1] 5 0 exampleProvider.batch_size = iterate_one_epoch exampleProvider [0, 1] :=
  ⟨⟨by decide, by decide⟩, C9_terminates exampleProvider [0, 1] (by decide) 5 (by decide)⟩

/-! ### Claim C3 -/

theorem firstSeen_nil_toFinset (l : List Int) : (firstSeen [] l).toFinset = l.toFinset := by
  ext x
  simp [List.mem_toFinset, firstSeen_mem]

theorem firstSeen_nil_length (l : List Int) : (firstSeen [] l).length = l.toFinset.card := by
  rw [← firstSeen_nil_toFinset, List.toFinset_card_of_nodup (firstSeen_nodup [] l)]

/-- C3: on a well-formed corpus, each internally built map has one
entry per distinct raw id seen, with pairwise-distinct keys in strict
first-occurrence order and values exactly `0, 1, …, K-1` in that order
(a bijection onto the dense range). -/
theorem C3_maps_bijective (uInd iInd : Nat) (delim : Char) (corpus : Corpus)
    (st : BuildState) (h : buildMaps uInd iInd delim corpus = .ok st) :
    (mapKeys st.user_id_map).Nodup ∧
    mapVals st.user_id_map = List.range st.user_id_map.length ∧
    st.user_id_map.length = (uIdsOf uInd delim (flattenCorpus corpus)).toFinset.card ∧
    mapKeys st.user_id_map = firstSeen [] (uIdsOf uInd delim (flattenCorpus corpus)) ∧
    (mapKeys st.item_id_map).Nodup ∧
    mapVals st.item_id_map = List.range st.item_id_map.length ∧
    st.item_id_map.length = (iIdsOf iInd delim (flattenCorpus corpus)).toFinset.card ∧
    mapKeys st.item_id_map = firstSeen [] (iIdsOf iInd delim (flattenCorpus corpus)) := by
  obtain ⟨hu, hi⟩ := buildMaps_ok_char uInd iInd delim corpus st h
  obtain ⟨hvu, hvi⟩ := buildMaps_vals uInd iInd delim corpus st h
  refine ⟨?_, hvu, ?_, ?_, ?_, hvi, ?_, ?_⟩
  · rw [hu, enumFrom_keys]; exact firstSeen_nodup _ _
  · rw [hu, enumFrom_length, firstSeen_nil_length]
  · rw [hu, enumFrom_keys]
  · rw [hi, enumFrom_keys]; exact firstSeen_nodup _ _
  · rw [hi, enumFrom_length, firstSeen_nil_length]
  · rw [hi, enumFrom_keys]

theorem C3_witness :
    buildMaps 1 0 '\t' exampleCorpus = .ok exampleBuildState ∧
    mapKeys exampleBuildState.user_id_map =
      firstSeen [] (uIdsOf 1 '\t' (flattenCorpus exampleCorpus)) :=
  ⟨by decide, (C3_maps_bijective 1 0 '\t' exampleCorpus exampleBuildState (by decide)).2.2.2.1⟩

/-! ### Claim C4 -/

/-- C4: for a provider with internally built maps, every (row, col,
value) triple of every training batch has `row < batch_size` and
`col < vector_dim`, the declared shape being `(batch_size,
vector_dim)` — for any shuffle outcome. -/
theorem C4_batch_bounds (p : Params) (corpus : Corpus) (prov : Provider)
    (h : mkProvider p corpus none none = .ok prov) (keys : List Nat) (b : Batch)
    (hb : b ∈ iterate_one_epoch prov keys) :
    b.rows = prov.batch_size ∧ b.cols = prov.vector_dim ∧
    (∀ r ∈ b.inds1, r < prov.batch_size) ∧ (∀ c ∈ b.inds2, c < prov.vector_dim) := by
  obtain ⟨st, hbuild, hum, him, hbs, hvdim, hagg, hsrc⟩ := mkProvider_ok_char p corpus prov h
  have hvals : mapVals (if p.major = "items" then st.user_id_map else st.item_id_map) =
      List.range (if p.major = "items" then st.user_id_map else st.item_id_map).length := by
    obtain ⟨hvu, hvi⟩ := buildMaps_vals _ _ _ _ _ hbuild
    by_cases hm : p.major = "items" <;> simp [hm, hvu, hvi]
  have htv : TableVals (if p.major = "items" then st.user_id_map else st.item_id_map)
      prov.data := by
    rw [foldCorpusE_eq_foldFlat] at hagg
    refine foldFlatE_inv _ _ ?_ (flattenCorpus corpus) [] prov.data hagg (tableVals_nil _)
    intro file l d d1 hstep hP
    obtain ⟨key, value, rating, hvmem, hd1⟩ := aggLine_ok_char _ _ _ _ _ _ _ _ _ _ hstep
    rw [hd1]
    exact tableVals_aggInsert _ d key (value, rating) hP hvmem
  have hb2 : b ∈ epochLoopAux prov.data prov.batch_size prov.vector_dim keys keys.length 0
      (0 + prov.batch_size) := by
    rwa [Nat.zero_add]
  obtain ⟨s0, hbEq⟩ := mem_epochLoopAux prov.data prov.batch_size prov.vector_dim keys
    keys.length 0 b hb2
  subst hbEq
  refine ⟨rfl, rfl, ?_, ?_⟩
  · intro r hr
    simp only [mkBatch] at hr
    have := batchTriples_row_bound prov.data keys (s0 + prov.batch_size - s0) s0 0 r hr
    omega
  · intro c hc
    simp only [mkBatch] at hc
    have hcm := batchTriples_col_bound _ prov.data keys htv (s0 + prov.batch_size - s0) s0 0 c hc
    rw [hvals] at hcm
    have hlt := List.mem_range.mp hcm
    rw [hvdim]
    exact hlt

theorem C4_witness :
    mkProvider exampleParams exampleCorpus none none = .ok exampleProvider ∧
    exampleBatch ∈ iterate_one_epoch exampleProvider [0, 1] ∧
    (exampleBatch.rows = exampleProvider.batch_size ∧
     exampleBatch.cols = exampleProvider.vector_dim ∧
     (∀ r ∈ exampleBatch.inds1, r < exampleProvider.batch_size) ∧
     (∀ c ∈ exampleBatch.inds2, c < exampleProvider.vector_dim)) :=
  ⟨by decide, by decide,
   C4_batch_bounds exampleParams exampleCorpus exampleProvider (by decide) [0, 1]
     exampleBatch (by decide)⟩

/-! ### Claim C5 -/

/-- C5: when `src_data` covers every key of the primary table, one eval
pass yields no error and exactly one element per major key, in table
key order, each a pair of `(1, vector_dim)`-shaped matrices, and — when
`for_inf` — carrying exactly the key just processed. -/
theorem C5_eval_each_key_once (prov : Provider) (src : AggTable) (forInf : Bool)
    (hsrc : prov.src_data = some src)
    (hcov : ∀ k ∈ prov.data.map Prod.fst, (src.lookup k).isSome) :
    iterate_one_epoch_eval prov forInf =
      ((prov.data.map Prod.fst).map (evalElemOf prov.data src prov.vector_dim forInf), none) ∧
    (iterate_one_epoch_eval prov forInf).1.length = prov.data.length ∧
    (∀ el ∈ (iterate_one_epoch_eval prov forInf).1,
      el.target.rows = 1 ∧ el.target.cols = prov.vector_dim ∧
      el.source.rows = 1 ∧ el.source.cols = prov.vector_dim) ∧
    (∀ i, i < prov.data.length →
      ((iterate_one_epoch_eval prov forInf).1.getD i default).key =
        if forInf then some ((prov.data.map Prod.fst).getD i 0) else none) := by
  have hmain : iterate_one_epoch_eval prov forInf =
      ((prov.data.map Prod.fst).map (evalElemOf prov.data src prov.vector_dim forInf), none) := by
    unfold iterate_one_epoch_eval
    rw [hsrc]
    exact evalLoop_all_ok prov.data src prov.vector_dim forInf (prov.data.map Prod.fst) hcov
  refine ⟨hmain, ?_, ?_, ?_⟩
  · rw [hmain]; simp
  · intro el hel
    rw [hmain] at hel
    simp only at hel
    obtain ⟨k, hk, hkeq⟩ := List.mem_map.mp hel
    subst hkeq
    exact ⟨rfl, rfl, rfl, rfl⟩
  · intro i hi
    rw [hmain]
    have hlen : i < (prov.data.map Prod.fst).length := by simpa using hi
    simp only
    rw [List.getD_eq_getElem _ _ (by simpa using hlen), List.getElem_map,
      List.getD_eq_getElem _ _ hlen]
    rfl

theorem C5_witness :
    exampleProviderWithSrc.src_data = some [(0, [(0, 5), (1, 4)]), (1, [(0, 3)])] ∧
    (∀ k ∈ exampleProviderWithSrc.data.map Prod.fst,
      (([(0, [(0, 5), (1, 4)]), (1, [(0, 3)])] : AggTable).lookup k).isSome) ∧
    (iterate_one_epoch_eval exampleProviderWithSrc true).1.length =
      exampleProviderWithSrc.data.length :=
  ⟨rfl, by decide,
   (C5_eval_each_key_once exampleProviderWithSrc [(0, [(0, 5), (1, 4)]), (1, [(0, 3)])] true
     rfl (by decide)).2.1⟩

/-! ### Claim C7 -/

/-- C7 counterexample: a provider with an empty primary table (as the
empty corpus constructs) and `src_data` unset iterates without any
error — the claimed unconditional MissingSourceData failure does not
occur. -/
theorem C7_counterexample :
    mkProvider { batch_size := 1 } [] none none = .ok emptyProvider ∧
    emptyProvider.src_data = none ∧
    iterate_one_epoch_eval emptyProvider false = ([], none) ∧
    ¬ (iterate_one_epoch_eval emptyProvider false).2 = some Err.missingSourceData := by
  decide

/-- C7 (amended): when at least one major key exists, iterating with
`src_data` unset fails with MissingSourceData before yielding anything;
and when `src_data` is set but lacks some key, the failure occurs
exactly when that key is reached, the elements of all earlier keys
having been yielded. -/
theorem C7_missing_source (prov : Provider) (forInf : Bool) :
    (prov.src_data = none → prov.data ≠ [] →
      iterate_one_epoch_eval prov forInf = ([], some Err.missingSourceData)) ∧
    (∀ (src : AggTable) (ks1 : List Nat) (k : Nat) (ks2 : List Nat),
      prov.src_data = some src →
      prov.data.map Prod.fst = ks1 ++ k :: ks2 →
      (∀ k1 ∈ ks1, (src.lookup k1).isSome) → src.lookup k = none →
      iterate_one_epoch_eval prov forInf =
        (ks1.map (evalElemOf prov.data src prov.vector_dim forInf),
          some Err.missingSourceData)) := by
  constructor
  · intro hnone hne
    unfold iterate_one_epoch_eval
    rw [hnone]
    cases hkeys : prov.data.map Prod.fst with
    | nil => exact absurd (List.map_eq_nil_iff.mp hkeys) hne
    | cons k ks => simp [evalLoop, evalStep]
  · intro src ks1 k ks2 hsrc hkeys hgood hmiss
    unfold iterate_one_epoch_eval
    rw [hsrc, hkeys,
      evalLoop_append_good prov.data src prov.vector_dim forInf ks1 (k :: ks2) hgood]
    simp [evalLoop, evalStep, hmiss]

theorem C7_witness :
    (exampleProvider.src_data = none ∧ exampleProvider.data ≠ [] ∧
      iterate_one_epoch_eval exampleProvider false = ([], some Err.missingSourceData)) ∧
    (srcGapProvider.data.map Prod.fst = [0] ++ 1 :: [] ∧
      (([(0, [(0, 5), (1, 4)])] : AggTable).lookup 1 = none) ∧
      iterate_one_epoch_eval srcGapProvider false =
        (([0] : List Nat).map
          (evalElemOf srcGapProvider.data [(0, [(0, 5), (1, 4)])]
            srcGapProvider.vector_dim false),
         some Err.missingSourceData)) :=
  ⟨⟨rfl, by decide, (C7_missing_source exampleProvider false).1 rfl (by decide)⟩,
   ⟨by decide, by decide,
    (C7_missing_source srcGapProvider false).2 [(0, [(0, 5), (1, 4)])] [0] 1 []
      rfl (by decide) (by decide) (by decide)⟩⟩

/-! ### Claim C6 -/

/-- C6: a line with fewer than 3 fields aborts construction at that
line with a MalformedRecord error naming its file — whatever lines or
files follow it — both in the map-building pass (internally built maps)
and in the aggregation pass (externally supplied maps).  The prefix
hypotheses say the scan actually reaches the offending line. -/
theorem C6_malformed_aborts (p : Params) (hmaj : p.major = "items" ∨ p.major = "users")
    (c1 : Corpus) (f : String) (pre post : List String) (bad : String) (c2 : Corpus)
    (hbad : (pySplit p.delimiter bad).length < 3) :
    ((∀ fl ∈ flattenCorpus c1 ++ pre.map (fun l => (f, l)),
        buildLineOk p.userIdInd p.itemIdInd p.delimiter fl.2 = true) →
      mkProvider p (c1 ++ (f, pre ++ bad :: post) :: c2) none none =
        .error (.malformedLine f)) ∧
    (∀ um im : IdMap,
      (∀ fl ∈ flattenCorpus c1 ++ pre.map (fun l => (f, l)),
        aggLineOk p.majorInd p.minorInd p.ratingInd p.delimiter
          (if p.major = "items" then im else um)
          (if p.major = "items" then um else im) fl.2 = true) →
      mkProvider p (c1 ++ (f, pre ++ bad :: post) :: c2) (some um) (some im) =
        .error (.malformedLine f)) := by
  have hflat : flattenCorpus (c1 ++ (f, pre ++ bad :: post) :: c2) =
      (flattenCorpus c1 ++ pre.map (fun l => (f, l))) ++
        (f, bad) :: (post.map (fun l => (f, l)) ++ flattenCorpus c2) := by
    rw [flattenCorpus_append, flattenCorpus_cons]
    simp [List.append_assoc]
  constructor
  · intro hgood
    have hbuild : buildMaps p.userIdInd p.itemIdInd p.delimiter
        (c1 ++ (f, pre ++ bad :: post) :: c2) = .error (.malformedLine f) := by
      unfold buildMaps
      rw [foldCorpusE_eq_foldFlat, hflat]
      exact foldFlatE_first_bad _ _
        (fun file l st => buildMapsLine_isOk p.userIdInd p.itemIdInd p.delimiter file l st)
        (f, bad) (.malformedLine f)
        (fun st => by simp [buildMapsLine, hbad])
        _ hgood _ _
    unfold mkProvider
    rw [if_pos hmaj]
    simp [hbuild]
  · intro um im hgood
    have hagg : foldCorpusE (aggLine p.majorInd p.minorInd p.ratingInd p.delimiter
        (if p.major = "items" then im else um) (if p.major = "items" then um else im))
        (c1 ++ (f, pre ++ bad :: post) :: c2) [] = .error (.malformedLine f) := by
      rw [foldCorpusE_eq_foldFlat, hflat]
      exact foldFlatE_first_bad _ _
        (fun file l d => aggLine_isOk p.majorInd p.minorInd p.ratingInd p.delimiter _ _ file l d)
        (f, bad) (.malformedLine f)
        (fun d => by simp [aggLine, hbad])
        _ hgood _ _
    unfold mkProvider
    rw [if_pos hmaj]
    simp [hagg]

theorem C6_witness :
    (pySplit '\t' "1\t2").length < 3 ∧
    mkProvider exampleParams [("data/bad.txt", ["0\t0\t5.0", "1\t2", "9\t9\t9.0"])] none none =
      .error (.malformedLine "data/bad.txt") ∧
    mkProvider exampleParams [("data/bad.txt", ["0\t0\t5.0", "1\t2", "9\t9\t9.0"])]
      (some [(0, 0)]) (some [(0, 0), (1, 1)]) = .error (.malformedLine "data/bad.txt") :=
  ⟨by decide,
   (C6_malformed_aborts exampleParams (Or.inl rfl) [] "data/bad.txt" ["0\t0\t5.0"]
     ["9\t9\t9.0"] "1\t2" [] (by decide)).1 (by decide),
   (C6_malformed_aborts exampleParams (Or.inl rfl) [] "data/bad.txt" ["0\t0\t5.0"]
     ["9\t9\t9.0"] "1\t2" [] (by decide)).2 [(0, 0)] [(0, 0), (1, 1)] (by decide)⟩

/-! ### Claim C10 -/

/-- C10: a line with at least 3 fields whose configured id field does
not parse as an integer, or whose rating field does not parse as a
float, makes construction fail with a numeric-parse error — an error
kind outside the spec's four declared ones.  Contrapositively,
successful construction presupposes every line's id fields are
integer-parseable and its rating float-parseable. -/
theorem C10_numeric_parse (p : Params) (corpus : Corpus)
    (hmaj : p.major = "items" ∨ p.major = "users")
    (hiInd : p.itemIdInd < 3) (huInd : p.userIdInd < 3) (hrInd : p.ratingInd < 3)
    (h3 : ∀ fl ∈ flattenCorpus corpus, ¬ (pySplit p.delimiter fl.2).length < 3)
    (hbad : ∃ fl ∈ flattenCorpus corpus,
      lineUId? p.userIdInd p.delimiter fl.2 = none ∨
      lineIId? p.itemIdInd p.delimiter fl.2 = none ∨
      lineRat? p.ratingInd p.delimiter fl.2 = none) :
    mkProvider p corpus none none = .error .numericParse ∧
    Err.numericParse.isDeclaredKind = false := by
  refine ⟨?_, rfl⟩
  have hmajInd : p.majorInd < 3 := by
    unfold Params.majorInd
    split
    · exact hiInd
    · exact huInd
  have hminInd : p.minorInd < 3 := by
    unfold Params.minorInd
    split
    · exact huInd
    · exact hiInd
  cases hb : buildMaps p.userIdInd p.itemIdInd p.delimiter corpus with
  | error e =>
    have he : e = .numericParse := by
      have hb2 := hb
      unfold buildMaps at hb2
      rw [foldCorpusE_eq_foldFlat] at hb2
      refine foldFlatE_error_shape _ (fun e2 => e2 = Err.numericParse) (flattenCorpus corpus)
        ?_ _ e hb2
      intro fl hfl st e2 hstep
      refine buildMapsLine_error_shape p.userIdInd p.itemIdInd p.delimiter fl.1 fl.2 st e2
        (h3 fl hfl) ?_ ?_ hstep
      · have := h3 fl hfl; omega
      · have := h3 fl hfl; omega
    unfold mkProvider
    rw [if_pos hmaj]
    simp [hb, he]
  | ok st =>
    have hbFlat : foldFlatE (buildMapsLine p.userIdInd p.itemIdInd p.delimiter)
        (flattenCorpus corpus) ⟨[], [], 0, 0⟩ = .ok st := by
      have hb2 := hb
      unfold buildMaps at hb2
      rwa [foldCorpusE_eq_foldFlat] at hb2
    have hball : ∀ fl ∈ flattenCorpus corpus,
        buildLineOk p.userIdInd p.itemIdInd p.delimiter fl.2 = true := by
      have hok := buildFold_isOk p.userIdInd p.itemIdInd p.delimiter (flattenCorpus corpus)
        ⟨[], [], 0, 0⟩
      rw [hbFlat] at hok
      simp [isOkE] at hok
      intro fl hfl
      exact hok fl.1 fl.2 hfl
    obtain ⟨hcompU, hcompI⟩ := buildMaps_complete p.userIdInd p.itemIdInd p.delimiter corpus st hb
    have hlookupMaj : ∀ fl ∈ flattenCorpus corpus, ∀ mraw,
        ((pySplit p.delimiter fl.2)[p.majorInd]?).bind parseInt? = some mraw →
        (((if p.major = "items" then st.item_id_map else st.user_id_map) : IdMap).lookup
          mraw).isSome := by
      intro fl hfl mraw hparse
      by_cases hm : p.major = "items"
      · rw [if_pos hm]
        rw [lookup_isSome_iff]
        refine hcompI fl hfl mraw ?_
        unfold Params.majorInd at hparse
        rw [if_pos hm] at hparse
        exact hparse
      · rw [if_neg hm]
        rw [lookup_isSome_iff]
        refine hcompU fl hfl mraw ?_
        unfold Params.majorInd at hparse
        rw [if_neg hm] at hparse
        exact hparse
    have hlookupMin : ∀ fl ∈ flattenCorpus corpus, ∀ nraw,
        ((pySplit p.delimiter fl.2)[p.minorInd]?).bind parseInt? = some nraw →
        (((if p.major = "items" then st.user_id_map else st.item_id_map) : IdMap).lookup
          nraw).isSome := by
      intro fl hfl nraw hparse
      by_cases hm : p.major = "items"
      · rw [if_pos hm]
        rw [lookup_isSome_iff]
        refine hcompU fl hfl nraw ?_
        unfold Params.minorInd at hparse
        rw [if_pos hm] at hparse
        exact hparse
      · rw [if_neg hm]
        rw [lookup_isSome_iff]
        refine hcompI fl hfl nraw ?_
        unfold Params.minorInd at hparse
        rw [if_neg hm] at hparse
        exact hparse
    cases hagg : foldCorpusE (aggLine p.majorInd p.minorInd p.ratingInd p.delimiter
        (if p.major = "items" then st.item_id_map else st.user_id_map)
        (if p.major = "items" then st.user_id_map else st.item_id_map)) corpus [] with
    | error e =>
      have he : e = .numericParse := by
        have hagg2 := hagg
        rw [foldCorpusE_eq_foldFlat] at hagg2
        refine foldFlatE_error_shape _ (fun e2 => e2 = Err.numericParse) (flattenCorpus corpus)
          ?_ _ e hagg2
        intro fl hfl d e2 hstep
        refine aggLine_error_shape p.majorInd p.minorInd p.ratingInd p.delimiter _ _ fl.1 fl.2
          d e2 (h3 fl hfl) ?_ ?_ ?_ (hlookupMaj fl hfl) (hlookupMin fl hfl) hstep
        · have := h3 fl hfl; omega
        · have := h3 fl hfl; omega
        · have := h3 fl hfl; omega
      unfold mkProvider
      rw [if_pos hmaj]
      simp [hb, hagg, he]
    | ok data =>
      exfalso
      have haggFlat : foldFlatE (aggLine p.majorInd p.minorInd p.ratingInd p.delimiter
          (if p.major = "items" then st.item_id_map else st.user_id_map)
          (if p.major = "items" then st.user_id_map else st.item_id_map))
          (flattenCorpus corpus) [] = .ok data := by
        rwa [foldCorpusE_eq_foldFlat] at hagg
      have haall : ∀ fl ∈ flattenCorpus corpus,
          aggLineOk p.majorInd p.minorInd p.ratingInd p.delimiter
            (if p.major = "items" then st.item_id_map else st.user_id_map)
            (if p.major = "items" then st.user_id_map else st.item_id_map) fl.2 = true := by
        have hok := aggFold_isOk p.majorInd p.minorInd p.ratingInd p.delimiter
          (if p.major = "items" then st.item_id_map else st.user_id_map)
          (if p.major = "items" then st.user_id_map else st.item_id_map)
          (flattenCorpus corpus) []
        rw [haggFlat] at hok
        simp [isOkE] at hok
        intro fl hfl
        exact hok fl.1 fl.2 hfl
      obtain ⟨fl, hfl, hbadfl⟩ := hbad
      rcases hbadfl with hno | hno | hno
      · have := hball fl hfl
        rw [buildLineOk, if_neg (h3 fl hfl), hno] at this
        simp at this
      · have := hball fl hfl
        rw [buildLineOk, if_neg (h3 fl hfl), hno] at this
        simp at this
      · have := haall fl hfl
        rw [aggLineOk, if_neg (h3 fl hfl), hno] at this
        simp at this

theorem C10_witness :
    (∀ fl ∈ flattenCorpus [("f", ["0\tx\t5.0"])],
      ¬ (pySplit exampleParams.delimiter fl.2).length < 3) ∧
    mkProvider exampleParams [("f", ["0\tx\t5.0"])] none none = .error .numericParse :=
  ⟨by decide,
   (C10_numeric_parse exampleParams [("f", ["0\tx\t5.0"])] (Or.inl rfl) (by decide) (by decide)
     (by decide) (by decide) (by decide)).1⟩

end UserItemRec
